import Mathlib

/-!
Verification development for the task-manager client-side data layer.

The definitions below are a shallow embedding of the TypeScript sources:
`src/utils/taskFilters.ts`, `src/utils/retryWithBackoff.ts`,
`src/services/LocalDataService.ts` and `src/services/ApiDataService.ts`.
JavaScript machine numbers that only ever hold integers are modelled as
`Int`/`Nat`; `Math.random()` draws and backoff arithmetic are modelled over
`ℚ`; `Date` objects are modelled by their local-midnight day number
(ECMAScript's proleptic Gregorian calendar), with `none` standing for an
Invalid Date.  Fallible operations return `Except`.
-/

set_option autoImplicit false

/-- Task priority, from the `PrioritySchema` enum (`low | medium | high`). -/
inductive Priority where
  | low
  | medium
  | high
  deriving DecidableEq, Repr

/-- Task status, from the `TaskStatusSchema` enum (`active | completed | archived`). -/
inductive TaskStatus where
  | active
  | completed
  | archived
  deriving DecidableEq, Repr

/-- The `TaskData` record shape.  Optional fields of the TypeScript interface are
`Option`s; `order` is a JS number that only ever holds integers; the two
ISO-timestamp strings are kept as opaque strings. -/
structure TaskData where
  id : String
  title : String
  description : Option String := none
  priority : Priority := .medium
  status : TaskStatus := .active
  dueDate : Option String := none
  order : Option Int := none
  listId : Option String := none
  tags : Option (List String) := none
  createdAt : String := ""
  updatedAt : String := ""
  deriving DecidableEq, Repr

/-- The `CreateTaskInput` shape (`CreateTaskInputSchema`): everything except the
title is optional. -/
structure CreateTaskInput where
  title : String
  description : Option String := none
  priority : Option Priority := none
  status : Option TaskStatus := none
  dueDate : Option String := none
  order : Option Int := none
  listId : Option String := none
  tags : Option (List String) := none
  deriving DecidableEq, Repr

/-- The `TaskCounts` record returned by `getTaskCounts`. -/
structure TaskCounts where
  all : Nat
  active : Nat
  completed : Nat
  archived : Nat
  deriving DecidableEq, Repr

/-- Failure conditions thrown by `LocalDataService` (plain `Error`s in the
source; we record which check raised them). -/
inductive DataError where
  | duplicateIds
  | taskIdNotFound (id : String)
  deriving DecidableEq, Repr

/-! ### JavaScript value helpers -/

/-- Truthiness of a `string | undefined | null` value: `undefined`, `null` and
the empty string are falsy (`!task.dueDate`, `if (listId)`, ...). -/
def strTruthy : Option String → Bool
  | none => false
  | some s => !(s == "")

/-- A JavaScript `Number` as produced by `Number(string)`: a finite double
(idealised as the exact rational value of the numeric literal), a signed
infinity, or `NaN`. -/
inductive JsNumber where
  | finite (q : ℚ)
  | infinite (negative : Bool)
  | nan
  deriving DecidableEq, Repr

/-- The `StrWhiteSpaceChar` set trimmed by `Number(string)`: ASCII whitespace,
VT, FF, NBSP, ZWNBSP, the line/paragraph separators and the Unicode
space-separator category. -/
def isJsWhitespace (c : Char) : Bool :=
  c.isWhitespace || c = '\x0b' || c = '\x0c' || c = '\u00A0' || c = '\uFEFF' ||
  c = '\u1680' || (decide ('\u2000' ≤ c) && decide (c ≤ '\u200A')) ||
  c = '\u2028' || c = '\u2029' || c = '\u202F' || c = '\u205F' || c = '\u3000'

/-- The value of a list of base-`base` digit characters, most significant
first, under the digit-value function `val`. -/
def digitsFold (base : Nat) (val : Char → Nat) (l : List Char) : Nat :=
  l.foldl (fun n c => base * n + val c) 0

/-- Value of an ASCII decimal digit list. -/
def digitsNatVal (l : List Char) : Nat :=
  digitsFold 10 (fun c => c.toNat - '0'.toNat) l

/-- ASCII hexadecimal digit test. -/
def isHexDigit (c : Char) : Bool :=
  c.isDigit || (decide ('a' ≤ c) && decide (c ≤ 'f')) ||
    (decide ('A' ≤ c) && decide (c ≤ 'F'))

/-- Value of an ASCII hexadecimal digit. -/
def hexDigitVal (c : Char) : Nat :=
  if c.isDigit then c.toNat - '0'.toNat
  else if decide ('a' ≤ c) && decide (c ≤ 'f') then c.toNat - 'a'.toNat + 10
  else c.toNat - 'A'.toNat + 10

/-- `StrUnsignedDecimalLiteral` without the `Infinity` production:
`DecimalDigits [. [DecimalDigits]] [ExponentPart]` or
`. DecimalDigits [ExponentPart]`; at least one digit must appear before the
exponent, the exponent needs at least one digit after its optional sign, and
nothing may follow.  The literal `i.f e±x` denotes `(i·10^|f| + f) / 10^|f| ·
10^±x`; that exact value is returned as an integer numerator and positive
power-of-ten denominator (one unnormalised fraction, so that concrete inputs
evaluate), `none` when the production does not match. -/
def parseUnsignedDecimal (l : List Char) : Option (Int × Nat) :=
  let intPart := l.takeWhile Char.isDigit
  let r1 := l.dropWhile Char.isDigit
  let fracPart := match r1 with
    | '.' :: r => r.takeWhile Char.isDigit
    | _ => []
  let r2 := match r1 with
    | '.' :: r => r.dropWhile Char.isDigit
    | _ => r1
  if intPart = [] ∧ fracPart = [] then none
  else
    let a : Nat := digitsNatVal intPart * 10 ^ fracPart.length + digitsNatVal fracPart
    match r2 with
    | [] => some ((a : Int), 10 ^ fracPart.length)
    | e :: r3 =>
      if e = 'e' ∨ e = 'E' then
        let eneg := match r3 with
          | '-' :: _ => true
          | _ => false
        let r4 := match r3 with
          | '+' :: r => r
          | '-' :: r => r
          | r => r
        let expDigits := r4.takeWhile Char.isDigit
        let r5 := r4.dropWhile Char.isDigit
        if expDigits = [] ∨ r5 ≠ [] then none
        else
          let ex : ℤ :=
            if eneg then -(digitsNatVal expDigits : ℤ) else (digitsNatVal expDigits : ℤ)
          some ((a : Int) * 10 ^ ex.toNat, 10 ^ (fracPart.length + (-ex).toNat))
      else none

/-- Embedding of JS `Number(string)` (the `StringNumericLiteral` grammar):
whitespace is trimmed from both ends, the empty remainder is `+0`, an
unsigned `0x`/`0o`/`0b` literal takes its base's value, and otherwise an
optionally signed `Infinity` or decimal literal is parsed; everything else is
`NaN`.  Double rounding is idealised away: a finite literal denotes its exact
rational value. -/
def jsNum (cs : List Char) : JsNumber :=
  let t := ((cs.dropWhile isJsWhitespace).reverse.dropWhile isJsWhitespace).reverse
  if t = [] then .finite 0
  else
    let nonDecimal : Option JsNumber :=
      match t with
      | '0' :: c :: rest =>
        if c = 'x' ∨ c = 'X' then
          some (if rest ≠ [] ∧ rest.all isHexDigit
            then .finite (digitsFold 16 hexDigitVal rest) else .nan)
        else if c = 'o' ∨ c = 'O' then
          some (if rest ≠ [] ∧ rest.all (fun d => decide ('0' ≤ d) && decide (d ≤ '7'))
            then .finite (digitsFold 8 (fun d => d.toNat - '0'.toNat) rest) else .nan)
        else if c = 'b' ∨ c = 'B' then
          some (if rest ≠ [] ∧ rest.all (fun d => d = '0' ∨ d = '1')
            then .finite (digitsFold 2 (fun d => d.toNat - '0'.toNat) rest) else .nan)
        else none
      | _ => none
    match nonDecimal with
    | some v => v
    | none =>
      let neg := match t with
        | '-' :: _ => true
        | _ => false
      let body := match t with
        | '+' :: r => r
        | '-' :: r => r
        | r => r
      if body = ['I', 'n', 'f', 'i', 'n', 'i', 't', 'y'] then .infinite neg
      else match parseUnsignedDecimal body with
        | some nd => .finite (mkRat (if neg then -nd.1 else nd.1) nd.2)
        | none => .nan

/-- Splits a character list on `'-'` (JS `str.split('-')`): every separator
starts a new chunk, so leading/trailing/adjacent separators yield empty chunks. -/
def splitDash : List Char → List (List Char)
  | [] => [[]]
  | c :: rest =>
      let r := splitDash rest
      if c = '-' then [] :: r
      else
        match r with
        | [] => [[c]]
        | chunk :: rs => (c :: chunk) :: rs

/-! ### The ECMAScript local-date model

A JS `Date` at local midnight is represented by its day number (days since
1970-01-01 in the proleptic Gregorian calendar).  `daysFromCivil` and
`civilFromDays` are the standard closed-form civil-calendar conversions, which
agree with ECMAScript's `MakeDay`/`YearFromTime`/`MonthFromTime`/`DateFromTime`.
-/

/-- Day number of the civil date `(y, m, d)` with `m ∈ [1,12]`; `d` may lie
outside the month and rolls over linearly, exactly as ECMAScript `MakeDay`
treats the date argument. -/
def daysFromCivil (y m d : Int) : Int :=
  let yAdj := if m ≤ 2 then y - 1 else y
  let era := yAdj.fdiv 400
  let yoe := yAdj - 400 * era
  let mShift := if 2 < m then m - 3 else m + 9
  let doy := (153 * mShift + 2).fdiv 5 + (d - 1)
  let doe := yoe * 365 + yoe.fdiv 4 - yoe.fdiv 100 + doy
  era * 146097 + doe - 719468

/-- Civil date `(year, month ∈ [1,12], day)` of a day number; inverse of
`daysFromCivil` on valid dates.  `getFullYear/getMonth/getDate` read these
components (with `getMonth` 0-based). -/
def civilFromDays (z0 : Int) : Int × Int × Int :=
  let z := z0 + 719468
  let era := z.fdiv 146097
  let doe := z - era * 146097
  let yoe := (doe - doe.fdiv 1460 + doe.fdiv 36524 - doe.fdiv 146096).fdiv 365
  let y := yoe + era * 400
  let doy := doe - (365 * yoe + yoe.fdiv 4 - yoe.fdiv 100)
  let mp := (5 * doy + 2).fdiv 153
  let d := doy - (153 * mp + 2).fdiv 5 + 1
  let m := if mp < 10 then mp + 3 else mp - 9
  (if m ≤ 2 then y + 1 else y, m, d)

/-- The `new Date(year, month0, day)` constructor (0-based month, normalised by
carrying whole years, then `MakeDay`): returns the day number. -/
def mkDate (y m0 d : Int) : Int :=
  daysFromCivil (y + m0.fdiv 12) (m0.emod 12 + 1) d

/-- `ToIntegerOrInfinity` on a finite number: truncation toward zero. -/
def ratTrunc (q : ℚ) : Int :=
  if q < 0 then ⌈q⌉ else ⌊q⌋

/-- The `new Date(year, month0, day)` constructor on finite JS numbers: every
argument is truncated toward zero, an integral year in `0..99` is read as
`1900..1999`, months are normalised by carrying whole years, and the result is
clipped to the representable `Date` range (`TimeClip`: at most 100,000,000
days from the epoch, with the local offset idealised to UTC).  `none` is an
Invalid Date. -/
def mkDateNum (y m0 d : ℚ) : Option Int :=
  let yi := ratTrunc y
  let yr := if 0 ≤ yi ∧ yi ≤ 99 then 1900 + yi else yi
  let day := mkDate yr (ratTrunc m0) (ratTrunc d)
  if day.natAbs ≤ 100000000 then some day else none

/-- Embedding of `parseDate` from `src/utils/taskFilters.ts`:

```
const [year, month, day] = dateString.split('-').map(Number);
return new Date(year, month - 1, day);
```

A missing component destructures to `undefined` (whose `Number` conversion in
the arithmetic is `NaN`), and any non-finite argument makes the `Date`
invalid (`none`). -/
def parseDate (s : String) : Option Int :=
  let parts := (splitDash s.data).map jsNum
  match parts[0]?, parts[1]?, parts[2]? with
  | some (JsNumber.finite y), some (JsNumber.finite m), some (JsNumber.finite d) =>
      mkDateNum y (m - 1) d
  | _, _, _ => none

/-- Comparison `dueDate.getFullYear() === today.getFullYear() && ...getMonth...
&& ...getDate...` between two valid local-midnight dates: equality of all three
civil components. -/
def sameLocalDay (a b : Int) : Bool :=
  civilFromDays a = civilFromDays b

/-! ### `filterTasksByList` (src/utils/taskFilters.ts) -/

/-- Embedding of `filterTasksByList(tasks, listId)`.  `today` is the day number
of the current local calendar day (`new Date()` with the time zeroed out);
`sevenDaysFromNow` is `today + 7` by `setDate(today.getDate() + 7)`.  An
invalid parsed due date (`none`) compares false in every branch, exactly as an
Invalid Date's `NaN` components and `NaN` time value do. -/
def filterTasksByList (today : Int) (tasks : List TaskData) (listId : Option String) :
    List TaskData :=
  if !strTruthy listId then tasks
  else
    let sevenDaysFromNow := today + 7
    match listId with
    | none => tasks
    | some lid =>
      match lid with
      | "inbox" =>
          tasks.filter fun task => !strTruthy task.dueDate && !strTruthy task.listId
      | "today" =>
          tasks.filter fun task =>
            if !strTruthy task.dueDate then false
            else match parseDate (task.dueDate.getD "") with
              | none => false
              | some dueDate => sameLocalDay dueDate today
      | "upcoming" =>
          tasks.filter fun task =>
            if !strTruthy task.dueDate then false
            else match parseDate (task.dueDate.getD "") with
              | none => false
              | some dueDate => today < dueDate && dueDate ≤ sevenDaysFromNow
      | "past_due" =>
          tasks.filter fun task =>
            if !strTruthy task.dueDate then false
            else match parseDate (task.dueDate.getD "") with
              | none => false
              | some dueDate => dueDate < today
      | "tags" =>
          tasks.filter fun task =>
            match task.tags with
            | none => false
            | some ts => decide (0 < ts.length)
      | _ =>
          tasks.filter fun task => task.listId == some lid

/-! ### The Smart View predicates as the specification words them (§3)

These are written from the specification sentence, to be compared with the
code's `filterTasksByList`: a task is in Inbox iff it has no due-date AND no
list-reference AND is not completed; in Today iff its due-date falls on the
current local calendar day AND it is not completed; in Upcoming iff its
due-date is strictly after today and within the next 7 calendar days inclusive
AND it is not completed; in Past-Due iff its due-date is strictly before today
AND it is not completed; in Tagged iff it has at least one tag, regardless of
status. -/

/-- Spec §3 Inbox predicate. -/
def specInbox (task : TaskData) : Bool :=
  !strTruthy task.dueDate && !strTruthy task.listId && !(task.status == .completed)

/-- Spec §3 Today predicate. -/
def specToday (today : Int) (task : TaskData) : Bool :=
  (match task.dueDate with
   | none => false
   | some s =>
     match parseDate s with
     | none => false
     | some dueDate => sameLocalDay dueDate today)
  && !(task.status == .completed)

/-- Spec §3 Upcoming predicate. -/
def specUpcoming (today : Int) (task : TaskData) : Bool :=
  (match task.dueDate with
   | none => false
   | some s =>
     match parseDate s with
     | none => false
     | some dueDate => today < dueDate && dueDate ≤ today + 7)
  && !(task.status == .completed)

/-- Spec §3 Past-Due predicate. -/
def specPastDue (today : Int) (task : TaskData) : Bool :=
  (match task.dueDate with
   | none => false
   | some s =>
     match parseDate s with
     | none => false
     | some dueDate => dueDate < today)
  && !(task.status == .completed)

/-- Spec §3 Tagged predicate (any status). -/
def specTagged (task : TaskData) : Bool :=
  match task.tags with
  | none => false
  | some ts => decide (0 < ts.length)

/-- Number of days in a civil month (for well-formedness of date strings). -/
def daysInMonth (y m : Int) : Int :=
  if m = 2 then
    if y.emod 4 = 0 ∧ (y.emod 100 ≠ 0 ∨ y.emod 400 = 0) then 29 else 28
  else if m = 4 ∨ m = 6 ∨ m = 9 ∨ m = 11 then 30
  else 31

/-- Modelled from the spec: a due-date string is a well-formed calendar date
when it consists of three dash-separated digit groups `Y-M-D` denoting an
actual calendar date (month in `[1,12]`, day within that month). -/
def isWellFormedCalendarDate (s : String) : Bool :=
  match splitDash s.data with
  | [ys, ms, ds] =>
      ys ≠ [] && ys.all (·.isDigit) && ms ≠ [] && ms.all (·.isDigit) &&
      ds ≠ [] && ds.all (·.isDigit) &&
      (let y : Int := digitsNatVal ys
       let m : Int := digitsNatVal ms
       let d : Int := digitsNatVal ds
       1 ≤ m && m ≤ 12 && 1 ≤ d && d ≤ daysInMonth y m)
  | _ => false

/-! ### Amended Smart View predicates (what the code's filter actually implements) -/

/-- The §3 Inbox predicate with the completion-status condition removed. -/
def amendedInboxView (task : TaskData) : Bool :=
  !strTruthy task.dueDate && !strTruthy task.listId

/-- The §3 Today predicate with the completion-status condition removed. -/
def amendedTodayView (today : Int) (task : TaskData) : Bool :=
  match task.dueDate with
  | none => false
  | some s =>
    match parseDate s with
    | none => false
    | some dueDate => sameLocalDay dueDate today

/-- The §3 Upcoming predicate with the completion-status condition removed. -/
def amendedUpcomingView (today : Int) (task : TaskData) : Bool :=
  match task.dueDate with
  | none => false
  | some s =>
    match parseDate s with
    | none => false
    | some dueDate => today < dueDate && dueDate ≤ today + 7

/-- The §3 Past-Due predicate with the completion-status condition removed. -/
def amendedPastDueView (today : Int) (task : TaskData) : Bool :=
  match task.dueDate with
  | none => false
  | some s =>
    match parseDate s with
    | none => false
    | some dueDate => dueDate < today

/-- The empty string parses to an Invalid Date (the second destructured
component is `undefined`, so `month - 1` is `NaN`). -/
theorem parseDate_empty : parseDate "" = none := by decide

/-- An empty-string due date is falsy, and a nonempty one parses via
`parseDate`; either way the code's date-view guard agrees with the amended
predicate shape. -/
theorem dueGuard_eq_amended (f : Int → Bool) (task : TaskData) :
    (if !strTruthy task.dueDate then false
     else match parseDate (task.dueDate.getD "") with
       | none => false
       | some dueDate => f dueDate) =
    (match task.dueDate with
     | none => false
     | some s =>
       match parseDate s with
       | none => false
       | some dueDate => f dueDate) := by
  rcases h : task.dueDate with _ | s
  · rfl
  · by_cases hs : s = ""
    · subst hs
      simp [strTruthy, parseDate_empty]
    · have : strTruthy (some s) = true := by
        simp [strTruthy, hs]
      simp [this]


/-- A completed task used to exhibit the missing status check in the Inbox
branch (day 20254 is 2025-06-15). -/
def completedInboxTask : TaskData :=
  { id := "c1", title := "done chore", status := .completed }

/-- C1, counterexample: `filterTasksByList` keeps a completed task in the Inbox
view, although the §3 Inbox predicate (which requires the task not to be
completed) rejects it.  So the view filter does not implement the five §3
predicates as claimed. -/
theorem c1_view_filter_counterexample :
    filterTasksByList 20254 [completedInboxTask] (some "inbox") = [completedInboxTask] ∧
    specInbox completedInboxTask = false := by
  constructor <;> rfl

/-- C1, amended: `filterTasksByList` implements the five Smart View predicates
of §3 **without** the completion-status conditions: membership in
Inbox/Today/Upcoming/Past-Due is decided purely by due-date/list-reference and
the calendar comparison (completed and archived tasks are not excluded), and
Tagged contains exactly the tasks with at least one tag regardless of status. -/
theorem c1_view_filter_amended (today : Int) (tasks : List TaskData) :
    filterTasksByList today tasks (some "inbox") = tasks.filter amendedInboxView ∧
    filterTasksByList today tasks (some "today") = tasks.filter (amendedTodayView today) ∧
    filterTasksByList today tasks (some "upcoming") = tasks.filter (amendedUpcomingView today) ∧
    filterTasksByList today tasks (some "past_due") = tasks.filter (amendedPastDueView today) ∧
    filterTasksByList today tasks (some "tags") = tasks.filter specTagged := by
  refine ⟨rfl, ?_, ?_, ?_, rfl⟩
  · show tasks.filter _ = tasks.filter _
    exact List.filter_congr fun task _ =>
      dueGuard_eq_amended (fun dueDate => sameLocalDay dueDate today) task
  · show tasks.filter _ = tasks.filter _
    exact List.filter_congr fun task _ =>
      dueGuard_eq_amended (fun dueDate => today < dueDate && dueDate ≤ today + 7) task
  · show tasks.filter _ = tasks.filter _
    exact List.filter_congr fun task _ =>
      dueGuard_eq_amended (fun dueDate => dueDate < today) task

/-- A task whose due-date string `2025-02-29` is not a well-formed calendar
date (2025 is not a leap year) but parses, by ECMAScript date rollover, to
2025-03-01. -/
def rolloverTask : TaskData :=
  { id := "c8", title := "rollover", dueDate := some "2025-02-29" }

/-- C8, counterexample: with today = 2025-03-01 (day 20148), the task with the
malformed due-date string `2025-02-29` is **not** excluded from the Today
view: JS `new Date(2025, 1, 29)` rolls over to March 1 instead of yielding an
Invalid Date, so only strings whose components fail numeric parsing are
dropped. -/
theorem c8_malformed_date_counterexample :
    isWellFormedCalendarDate "2025-02-29" = false ∧
    filterTasksByList 20148 [rolloverTask] (some "today") = [rolloverTask] := by
  refine ⟨by decide, ?_⟩
  have hpd : parseDate "2025-02-29" = some 20148 := by
    rw [show parseDate "2025-02-29" = mkDateNum 2025 ((2 : ℚ) - 1) 29 from rfl,
      show ((2 : ℚ) - 1) = 1 from by norm_num]
    decide
  have hpred : (match parseDate "2025-02-29" with
      | none => false
      | some dueDate => sameLocalDay dueDate 20148) = true := by
    rw [hpd]
    decide
  show List.filter (fun task =>
      if !strTruthy task.dueDate then false
      else match parseDate (task.dueDate.getD "") with
        | none => false
        | some dueDate => sameLocalDay dueDate 20148) [rolloverTask] = [rolloverTask]
  exact List.filter_cons_of_pos hpred

/-- C8, amended: a task whose due-date string fails numeric parsing (its
`Date` is Invalid) never throws and is excluded from each date-based view
(Today, Upcoming, Past-Due); date strings with numeric components that do not
denote a real calendar day instead roll over to a valid date and may match. -/
theorem c8_malformed_date_amended (today : Int) (tasks : List TaskData) (t : TaskData)
    (s : String) (hdue : t.dueDate = some s) (hbad : parseDate s = none) :
    t ∉ filterTasksByList today tasks (some "today") ∧
    t ∉ filterTasksByList today tasks (some "upcoming") ∧
    t ∉ filterTasksByList today tasks (some "past_due") := by
  have key : ∀ f : Int → Bool,
      (if !strTruthy t.dueDate then false
       else match parseDate (t.dueDate.getD "") with
         | none => false
         | some dueDate => f dueDate) = false := by
    intro f
    rw [dueGuard_eq_amended f t, hdue]
    simp [hbad]
  refine ⟨?_, ?_, ?_⟩ <;>
    · intro hmem
      have := List.mem_filter.mp hmem
      rw [key] at this
      exact Bool.false_ne_true this.2

/-- Concrete instantiation of the amended C8 statement: a `not-a-date` due
date is excluded from the Today view on 2025-06-15. -/
theorem c8_malformed_date_amended_witness :
    ({ id := "w8", title := "bad", dueDate := some "not-a-date" } : TaskData) ∉
      filterTasksByList 20254 [{ id := "w8", title := "bad", dueDate := some "not-a-date" }]
        (some "today") :=
  (c8_malformed_date_amended 20254 _ _ "not-a-date" rfl (by decide)).1


/-! ### `LocalDataService` (src/services/LocalDataService.ts)

The store state is the in-memory `tasks` array.  `localStorage` persistence is
outside the data model; the clock values (`new Date().toISOString()` and
`Date.now()`) are passed in explicitly.
-/

/-- The `getTasks` sort comparator as a total preorder: tasks without an
`order` sort after all ordered tasks (`a.order - b.order` otherwise). -/
def orderLe (a b : TaskData) : Bool :=
  match a.order, b.order with
  | none, none => true
  | none, some _ => false
  | some _, none => true
  | some x, some y => x ≤ y

/-- Stable insertion of a task into an already sorted list: the new task goes
before the first element it compares ≤ to, so ties keep their original order,
matching the ES2019 stable `Array.prototype.sort`. -/
def insertByOrder (t : TaskData) : List TaskData → List TaskData
  | [] => [t]
  | u :: rest => if orderLe t u then t :: u :: rest else u :: insertByOrder t rest

/-- The `sort` call of `getTasks`, as a stable insertion sort with the
`orderLe` comparator (stable sorts under the same total preorder produce the
same output, so this is exactly the JS `Array.prototype.sort` result). -/
def sortByOrder : List TaskData → List TaskData
  | [] => []
  | t :: rest => insertByOrder t (sortByOrder rest)

/-- Embedding of `LocalDataService.getTasks(listId?, status?, page?, limit?)`:
truthy `listId`/`status` filters, the order sort, then the
`slice((page-1)*limit, (page-1)*limit + limit)` page. -/
def localGetTasks (tasks : List TaskData) (listId : Option String)
    (status : Option TaskStatus) (page limit : Option Nat) : List TaskData :=
  let f1 := if strTruthy listId then tasks.filter (fun t => t.listId == listId) else tasks
  let f2 := match status with
    | some st => f1.filter (fun t => t.status == st)
    | none => f1
  let sorted := sortByOrder f2
  match page, limit with
  | some p, some l => (sorted.drop ((p - 1) * l)).take l
  | _, _ => sorted

/-- Embedding of `LocalDataService.getTaskCounts(listId?)`. -/
def localGetTaskCounts (tasks : List TaskData) (listId : Option String) : TaskCounts :=
  let f := if strTruthy listId then tasks.filter (fun t => t.listId == listId) else tasks
  { all := f.length
    active := (f.filter (fun t => t.status == .active)).length
    completed := (f.filter (fun t => t.status == .completed)).length
    archived := (f.filter (fun t => t.status == .archived)).length }

/-- The `reduce` computing the maximum existing order (starting at `-1`):
`task.order !== undefined && task.order > max ? task.order : max`. -/
def maxOrderFold (tasks : List TaskData) : Int :=
  tasks.foldl
    (fun mx t =>
      match t.order with
      | some o => if mx < o then o else mx
      | none => mx)
    (-1)

/-- Embedding of `LocalDataService.createTask(input)`: assigns the generated
id, defaults, an auto order of max+1 when none is supplied, both timestamps,
and pushes the new task; there is no validation of any field.  Returns the
created task and the new store. -/
def createTask (genId : String) (now : String) (tasks : List TaskData)
    (input : CreateTaskInput) : TaskData × List TaskData :=
  let order : Int :=
    match input.order with
    | some o => o
    | none => maxOrderFold tasks + 1
  let newTask : TaskData :=
    { id := genId
      title := input.title
      description := input.description
      priority := input.priority.getD .medium
      status := input.status.getD .active
      dueDate := input.dueDate
      order := some order
      listId := input.listId
      tags := some (input.tags.getD [])
      createdAt := now
      updatedAt := now }
  (newTask, tasks ++ [newTask])

/-- One step of the reorder loop: `this.tasks.find(t => t.id === id)` and, when
found, in-place mutation of that task's `order` and `updatedAt` — i.e. the
first store entry with that id is replaced. -/
def setOrder (now : String) (id : String) (idx : Nat) : List TaskData → List TaskData
  | [] => []
  | t :: rest =>
      if t.id == id then { t with order := some (idx : Int), updatedAt := now } :: rest
      else t :: setOrder now id idx rest

/-- The `taskIds.forEach((id, index) => ...)` mutation phase of `reorderTasks`. -/
def applyOrders (now : String) (tasks : List TaskData) (pairs : List (Nat × String)) :
    List TaskData :=
  pairs.foldl (fun acc p => setOrder now p.2 p.1 acc) tasks

/-- Embedding of `LocalDataService.reorderTasks(taskIds)`: the duplicate check
(`new Set(taskIds).size !== taskIds.length`), then the first-missing-id check
over the current store, then the mutation phase.  The store is returned
alongside the outcome; the two throwing checks precede every mutation, so a
failure leaves the store untouched. -/
def reorderTasksRun (now : String) (tasks : List TaskData) (taskIds : List String) :
    Except DataError Unit × List TaskData :=
  if ¬ taskIds.Nodup then (.error .duplicateIds, tasks)
  else
    match taskIds.find? (fun id => !(tasks.any (fun t => t.id == id))) with
    | some id => (.error (.taskIdNotFound id), tasks)
    | none => (.ok (), applyOrders now tasks taskIds.enum)

/-- Lower-cases a character list and collapses every maximal run of whitespace
into a single underscore: `title.toLowerCase().replace(/\s+/g, '_')`.  The
flag records whether the previous character belonged to a whitespace run. -/
def slugChars : Bool → List Char → List Char
  | _, [] => []
  | prevWs, c :: rest =>
      if c.isWhitespace then
        if prevWs then slugChars true rest
        else '_' :: slugChars true rest
      else c.toLower :: slugChars false rest

/-- Decimal digits of `n`, most significant first, with an explicit fuel that
makes the recursion structural (fuel `n` always suffices). -/
def natDecimalAux : Nat → Nat → List Char
  | 0, n => [Nat.digitChar (n % 10)]
  | fuel + 1, n =>
      if n < 10 then [Nat.digitChar n]
      else natDecimalAux fuel (n / 10) ++ [Nat.digitChar (n % 10)]

/-- The decimal rendering of a natural number, as produced by JS template
interpolation of an integer `Number`. -/
def natDecimal (n : Nat) : List Char :=
  natDecimalAux n n

/-- Embedding of `generateKey(title)` (identical in `LocalDataService` and
`ApiDataService`): the slug of the title followed by `_` and the decimal
rendering of `Date.now()` (passed in as `nowMs`). -/
def generateKey (title : String) (nowMs : Nat) : String :=
  ⟨slugChars false title.data⟩ ++ "_" ++ ⟨natDecimal nowMs⟩

/-! ### `ApiDataService` (src/services/ApiDataService.ts) -/

/-- The catch-block of `ApiDataService.getTasks`: the cached tasks filtered by
truthy `listId` and `status` and sorted by order.  The `page`/`limit`
arguments of the surrounding call do not appear in this block. -/
def apiGetTasksFallback (cachedTasks : List TaskData) (listId : Option String)
    (status : Option TaskStatus) : List TaskData :=
  let f1 :=
    if strTruthy listId then cachedTasks.filter (fun t => t.listId == listId) else cachedTasks
  let f2 := match status with
    | some st => f1.filter (fun t => t.status == st)
    | none => f1
  sortByOrder f2

/-- Embedding of `ApiDataService.getTasks`: on a validated network success the
fresh tasks are returned and become the new cache; on any failure (network
error, non-2xx, schema-validation failure — all surfacing as a thrown error)
the catch-block result is returned and the cache is left as it was.  Returns
`(result, cache afterwards)`. -/
def apiGetTasks (netResult : Except String (List TaskData)) (cachedTasks : List TaskData)
    (listId : Option String) (status : Option TaskStatus) (_page _limit : Option Nat) :
    List TaskData × List TaskData :=
  match netResult with
  | .ok fresh => (fresh, fresh)
  | .error _ => (apiGetTasksFallback cachedTasks listId status, cachedTasks)

/-- The catch-block of `ApiDataService.getTaskCounts`: counts computed from the
cached tasks, filtered by truthy `listId`. -/
def apiGetTaskCountsFallback (cachedTasks : List TaskData) (listId : Option String) :
    TaskCounts :=
  let f :=
    if strTruthy listId then cachedTasks.filter (fun t => t.listId == listId) else cachedTasks
  { all := f.length
    active := (f.filter (fun t => t.status == .active)).length
    completed := (f.filter (fun t => t.status == .completed)).length
    archived := (f.filter (fun t => t.status == .archived)).length }

/-! ### `retryWithBackoff` (src/utils/retryWithBackoff.ts)

The operation is modelled as a function from the 1-based attempt number to its
outcome; `Math.random()` is a stream of draws in `[0, 1)` indexed by attempt;
delays are not waited for (single-threaded suspension has no observable
effect) but the computed values are recorded with the `onRetry` observations.
-/

/-- Embedding of `calculateDelay(attempt, initialDelay, maxDelay,
backoffFactor)` with the `Math.random()` draw made explicit:
`Math.floor(min(exponentialDelay + jitter, maxDelay))`. -/
def calculateDelay (attempt : Nat) (initialDelay maxDelay backoffFactor : ℚ) (rand : ℚ) : ℤ :=
  let exponentialDelay := initialDelay * backoffFactor ^ (attempt - 1)
  let jitter := rand * (3 / 10) * exponentialDelay
  let totalDelay := min (exponentialDelay + jitter) maxDelay
  ⌊totalDelay⌋

/-- Modelled from the spec sentence of §4.4: `delay = min(initialDelay ×
backoffFactor^(attempt−1) × (1 + uniformRandom(0, 0.3)), maxDelay)`, with the
draw written as `0.3 · r` for `r` uniform in `[0, 1)`. -/
def specDelay (attempt : Nat) (initialDelay maxDelay backoffFactor r : ℚ) : ℚ :=
  min (initialDelay * backoffFactor ^ (attempt - 1) * (1 + (3 / 10) * r)) maxDelay

/-- The attempt loop of `retryWithBackoff`, from a given 1-based attempt with
`fuel` further attempts allowed after the current one.  Returns the final
outcome, the number of invocations of the operation, and the list of `onRetry`
observations as (attempt number, computed delay) pairs. -/
def retryFrom {E A : Type} (fn : Nat → Except E A) (shouldRetry : E → Nat → Bool)
    (initialDelay maxDelay backoffFactor : ℚ) (rand : Nat → ℚ) :
    Nat → Nat → Except E A × Nat × List (Nat × ℤ)
  | attempt, fuel =>
    match fn attempt with
    | .ok a => (.ok a, 1, [])
    | .error e =>
      match fuel with
      | 0 => (.error e, 1, [])
      | fuel' + 1 =>
        if shouldRetry e attempt then
          let d := calculateDelay attempt initialDelay maxDelay backoffFactor (rand attempt)
          let rest :=
            retryFrom fn shouldRetry initialDelay maxDelay backoffFactor rand (attempt + 1) fuel'
          (rest.1, rest.2.1 + 1, (attempt, d) :: rest.2.2)
        else (.error e, 1, [])

/-- Embedding of `retryWithBackoff(fn, options)`: attempts run from 1 to
`maxAttempts`; with `maxAttempts = 0` the loop body never runs and the source
throws an undefined `lastError`, modelled as `none`. -/
def retryWithBackoff {E A : Type} (fn : Nat → Except E A) (shouldRetry : E → Nat → Bool)
    (initialDelay maxDelay backoffFactor : ℚ) (rand : Nat → ℚ) (maxAttempts : Nat) :
    Option (Except E A × Nat × List (Nat × ℤ)) :=
  match maxAttempts with
  | 0 => none
  | m + 1 => some (retryFrom fn shouldRetry initialDelay maxDelay backoffFactor rand 1 m)


/-! ### C4: createTask and the empty-title rule -/

/-- C4, counterexample: a whitespace-only title (empty after trimming) is not
rejected — `createTask` succeeds and appends the task to the store, title
unchanged.  Title validation lives only in the UI components
(`quick-add-task`, `edit-task-modal`), not in the data service. -/
theorem c4_create_task_counterexample :
    ("   ".data.all (·.isWhitespace) = true) ∧
    (createTask "task-1" "2025-01-01T00:00:00Z" [] { title := "   " }).2 =
      [(createTask "task-1" "2025-01-01T00:00:00Z" [] { title := "   " }).1] ∧
    (createTask "task-1" "2025-01-01T00:00:00Z" [] { title := "   " }).1.title = "   " := by
  refine ⟨by decide, rfl, rfl⟩

/-- C4, amended: `createTask` performs no title validation at all — for every
input (empty or whitespace-only titles included) it succeeds, appends exactly
one task to the store, and returns it with the assigned id and with both
timestamps set to the creation instant. -/
theorem c4_create_task_amended (genId now : String) (tasks : List TaskData)
    (input : CreateTaskInput) :
    (createTask genId now tasks input).2 = tasks ++ [(createTask genId now tasks input).1] ∧
    (createTask genId now tasks input).1.id = genId ∧
    (createTask genId now tasks input).1.createdAt = now ∧
    (createTask genId now tasks input).1.updatedAt = now ∧
    (createTask genId now tasks input).1.title = input.title :=
  ⟨rfl, rfl, rfl, rfl, rfl⟩

/-! ### C6: cache fallback of the remote getTasks -/

/-- First cached task for the pagination counterexample. -/
def cachedT1 : TaskData := { id := "t1", title := "one", order := some 0 }

/-- Second cached task for the pagination counterexample. -/
def cachedT2 : TaskData := { id := "t2", title := "two", order := some 1 }

/-- C6, counterexample: with a populated two-task cache and a network failure,
`getTasks(page = 1, limit = 1)` returns both cached tasks, while the same
arguments on the live (local record-store) semantics return a single-task
page.  The catch block ignores the pagination arguments, so the fallback is
not paged identically to a live call. -/
theorem c6_cache_fallback_counterexample :
    (apiGetTasks (.error "network failure") [cachedT1, cachedT2] none none
        (some 1) (some 1)).1 = [cachedT1, cachedT2] ∧
    localGetTasks [cachedT1, cachedT2] none none (some 1) (some 1) = [cachedT1] := by
  refine ⟨rfl, rfl⟩

/-- C6, amended: on any fetch failure the remote `getTasks` does not throw and
returns the cached task set filtered by list-reference and status and sorted
by order exactly as the record-store semantics with **no pagination**
(`page`/`limit` are ignored on the fallback path), and it leaves the cache
untouched. -/
theorem c6_cache_fallback_amended (err : String) (cachedTasks : List TaskData)
    (listId : Option String) (status : Option TaskStatus) (page limit : Option Nat) :
    (apiGetTasks (.error err) cachedTasks listId status page limit).1 =
      localGetTasks cachedTasks listId status none none ∧
    (apiGetTasks (.error err) cachedTasks listId status page limit).2 = cachedTasks :=
  ⟨rfl, rfl⟩

/-! ### C10: the four-way counts sum -/

/-- Every task's status is exactly one of the three enum values, so the three
status filters partition any list. -/
theorem length_filter_status (l : List TaskData) :
    l.length = (l.filter (fun t => t.status == TaskStatus.active)).length +
      (l.filter (fun t => t.status == TaskStatus.completed)).length +
      (l.filter (fun t => t.status == TaskStatus.archived)).length := by
  induction l with
  | nil => rfl
  | cons t rest ih =>
    cases h : t.status <;> simp [List.filter_cons, h, ih] <;> omega

/-- C10: in both the local record store and the cache-fallback implementation,
`getTaskCounts` satisfies `all = active + completed + archived` for every task
collection and every optional list-reference filter. -/
theorem c10_counts_partition (tasks cachedTasks : List TaskData) (listId : Option String) :
    (localGetTaskCounts tasks listId).all =
      (localGetTaskCounts tasks listId).active +
        (localGetTaskCounts tasks listId).completed +
        (localGetTaskCounts tasks listId).archived ∧
    (apiGetTaskCountsFallback cachedTasks listId).all =
      (apiGetTaskCountsFallback cachedTasks listId).active +
        (apiGetTaskCountsFallback cachedTasks listId).completed +
        (apiGetTaskCountsFallback cachedTasks listId).archived :=
  ⟨length_filter_status _, length_filter_status _⟩

/-! ### C2: the retry ceiling -/

/-- C2: with `maxAttempts = 3` and an operation failing on every invocation
with an error the predicate classifies as retryable, the operation is invoked
exactly 3 times, the observation callback fires exactly twice with the 1-based
attempt numbers 1 and 2 (never for the terminal attempt), and the final
attempt's error is the propagated outcome. -/
theorem c2_retry_ceiling {E A : Type} (fn : Nat → Except E A) (errf : Nat → E)
    (shouldRetry : E → Nat → Bool) (initialDelay maxDelay backoffFactor : ℚ)
    (rand : Nat → ℚ)
    (hfail : ∀ a, fn a = .error (errf a))
    (hretry : ∀ e a, shouldRetry e a = true) :
    retryWithBackoff fn shouldRetry initialDelay maxDelay backoffFactor rand 3 =
      some (.error (errf 3), 3,
        [(1, calculateDelay 1 initialDelay maxDelay backoffFactor (rand 1)),
         (2, calculateDelay 2 initialDelay maxDelay backoffFactor (rand 2))]) := by
  simp [retryWithBackoff, retryFrom, hfail, hretry]

/-- Concrete instantiation of C2: a constantly failing operation under the
default numeric options runs 3 attempts and reports retries after attempts 1
and 2. -/
theorem c2_retry_ceiling_witness :
    retryWithBackoff (fun _ => (.error 7 : Except Nat Unit)) (fun _ _ => true)
        1000 10000 2 (fun _ => 0) 3 =
      some (.error 7, 3,
        [(1, calculateDelay 1 1000 10000 2 0), (2, calculateDelay 2 1000 10000 2 0)]) :=
  c2_retry_ceiling (fun _ => .error 7) (fun _ => 7) (fun _ _ => true) 1000 10000 2
    (fun _ => 0) (fun _ => rfl) (fun _ _ => rfl)


/-! ### C7: backoff delay formula and ranges -/

/-- C7, counterexample: at attempt 1 with the default options and the jitter
draw `r = 1/1000`, the code computes `⌊1000.3⌋ = 1000`, which differs from the
claimed un-floored value `min(1000 · (1 + 0.3/1000), 10000) = 1000.3`. -/
theorem c7_backoff_delay_counterexample :
    (calculateDelay 1 1000 10000 2 (1 / 1000) : ℚ) ≠ specDelay 1 1000 10000 2 (1 / 1000) := by
  norm_num [calculateDelay, specDelay]

/-- The computed delay is exactly the floor of the spec's formula: the jitter
term `r · 0.3 · e` regroups as `e · (1 + 0.3 · r)`. -/
theorem calcDelay_floor (attempt : Nat) (initialDelay maxDelay backoffFactor r : ℚ) :
    calculateDelay attempt initialDelay maxDelay backoffFactor r =
      ⌊specDelay attempt initialDelay maxDelay backoffFactor r⌋ := by
  have h : initialDelay * backoffFactor ^ (attempt - 1) +
      r * (3 / 10) * (initialDelay * backoffFactor ^ (attempt - 1)) =
      initialDelay * backoffFactor ^ (attempt - 1) * (1 + (3 / 10) * r) := by ring
  simp only [calculateDelay, specDelay]
  rw [h]

/-- Range bracketing of the computed delay under the default options: when the
capped branch is never taken, the floored delay lies in `[E, 1.3·E)`. -/
theorem calcDelay_range (attempt : Nat) (r : ℚ) (h0 : 0 ≤ r) (h1 : r < 1) (E U : ℤ)
    (hE : (1000 : ℚ) * 2 ^ (attempt - 1) = (E : ℚ)) (hU : (U : ℚ) = (13 / 10) * (E : ℚ))
    (hcap : (U : ℚ) ≤ 10000) (hEpos : (0 : ℚ) < (E : ℚ)) :
    E ≤ calculateDelay attempt 1000 10000 2 r ∧ calculateDelay attempt 1000 10000 2 r < U := by
  simp only [calculateDelay]
  rw [hE]
  have hjit : 0 ≤ r * (3 / 10) * (E : ℚ) := by positivity
  have hup : (E : ℚ) + r * (3 / 10) * (E : ℚ) < (U : ℚ) := by nlinarith
  have hmin : min ((E : ℚ) + r * (3 / 10) * (E : ℚ)) 10000 =
      (E : ℚ) + r * (3 / 10) * (E : ℚ) :=
    min_eq_left (le_trans hup.le hcap)
  rw [hmin]
  constructor
  · exact Int.le_floor.mpr (by linarith)
  · exact Int.floor_lt.mpr hup

/-- C7, amended: for every attempt and every jitter draw `r ∈ [0, 1)` the
computed backoff delay equals the **floor** of
`min(initialDelay · backoffFactor^(attempt−1) · (1 + 0.3·r), maxDelay)`, and
with the default options the delays for attempts 1, 2, 3 fall in the ranges
`[1000, 1300)`, `[2000, 2600)`, `[4000, 5200)` respectively. -/
theorem c7_backoff_delay_amended (attempt : Nat) (initialDelay maxDelay backoffFactor r : ℚ)
    (h0 : 0 ≤ r) (h1 : r < 1) :
    calculateDelay attempt initialDelay maxDelay backoffFactor r =
      ⌊specDelay attempt initialDelay maxDelay backoffFactor r⌋ ∧
    (1 ≤ attempt → attempt ≤ 3 →
      (1000 : ℤ) * 2 ^ (attempt - 1) ≤ calculateDelay attempt 1000 10000 2 r ∧
      calculateDelay attempt 1000 10000 2 r < 1300 * 2 ^ (attempt - 1)) := by
  refine ⟨calcDelay_floor attempt initialDelay maxDelay backoffFactor r, ?_⟩
  intro ha1 ha3
  interval_cases attempt
  · simpa using
      calcDelay_range 1 r h0 h1 1000 1300 (by norm_num) (by norm_num) (by norm_num) (by norm_num)
  · simpa using
      calcDelay_range 2 r h0 h1 2000 2600 (by norm_num) (by norm_num) (by norm_num) (by norm_num)
  · simpa using
      calcDelay_range 3 r h0 h1 4000 5200 (by norm_num) (by norm_num) (by norm_num) (by norm_num)

/-- Concrete instantiation of the amended C7 statement at attempt 2 with the
defaults and `r = 1/2`. -/
theorem c7_backoff_delay_amended_witness :
    calculateDelay 2 1000 10000 2 (1 / 2) = ⌊specDelay 2 1000 10000 2 (1 / 2)⌋ ∧
    ((1000 : ℤ) * 2 ^ (2 - 1) ≤ calculateDelay 2 1000 10000 2 (1 / 2) ∧
      calculateDelay 2 1000 10000 2 (1 / 2) < 1300 * 2 ^ (2 - 1)) :=
  ⟨(c7_backoff_delay_amended 2 1000 10000 2 (1 / 2) (by norm_num) (by norm_num)).1,
   (c7_backoff_delay_amended 2 1000 10000 2 (1 / 2) (by norm_num) (by norm_num)).2
     (by norm_num) (by norm_num)⟩


/-! ### C9: generated list keys and timestamp collisions -/

/-- Fuel irrelevance for the decimal rendering: any fuel of at least `n`
computes the same digits. -/
theorem natDecimalAux_fuel (f : Nat) : ∀ (g n : Nat), n ≤ f → n ≤ g →
    natDecimalAux f n = natDecimalAux g n := by
  induction f with
  | zero =>
    intro g n hf _
    interval_cases n
    cases g with
    | zero => rfl
    | succ g => simp [natDecimalAux]
  | succ f ih =>
    intro g n hf hg
    by_cases hn : n < 10
    · cases g with
      | zero =>
        interval_cases n
        simp [natDecimalAux]
      | succ g => simp [natDecimalAux, hn]
    · have h10 : 10 ≤ n := Nat.le_of_not_lt hn
      cases g with
      | zero => omega
      | succ g =>
        have hdiv : n / 10 < n := Nat.div_lt_self (by omega) (by omega)
        simp only [natDecimalAux, if_neg hn]
        rw [ih g (n / 10) (by omega) (by omega)]

theorem natDecimal_eq (n : Nat) :
    natDecimal n =
      if n < 10 then [Nat.digitChar n]
      else natDecimal (n / 10) ++ [Nat.digitChar (n % 10)] := by
  by_cases hn : n < 10
  · cases n with
    | zero => simp [natDecimal, natDecimalAux, hn]
    | succ m => simp [natDecimal, natDecimalAux, hn]
  · have h10 : 10 ≤ n := Nat.le_of_not_lt hn
    obtain ⟨m, rfl⟩ : ∃ m, n = m + 1 := ⟨n - 1, by omega⟩
    simp only [natDecimal, natDecimalAux, if_neg hn]
    rw [natDecimalAux_fuel m ((m + 1) / 10) ((m + 1) / 10) (by omega) (by omega)]

theorem natDecimal_ne_nil (n : Nat) : natDecimal n ≠ [] := by
  rw [natDecimal_eq]
  split <;> simp

theorem digitChar_inj : ∀ a < 10, ∀ b < 10, Nat.digitChar a = Nat.digitChar b → a = b := by
  decide

theorem digitChar_ne_underscore (k : Nat) : Nat.digitChar k ≠ '_' := by
  rcases Nat.lt_or_ge k 16 with h | h
  · interval_cases k <;> decide
  · unfold Nat.digitChar
    repeat rw [if_neg (by omega)]
    decide

theorem natDecimal_no_underscore (n : Nat) : '_' ∉ natDecimal n := by
  induction n using Nat.strong_induction_on with
  | _ n ih =>
    rw [natDecimal_eq]
    split
    · simp [(digitChar_ne_underscore n).symm]
    · rename_i hn
      have hdiv : n / 10 < n := Nat.div_lt_self (by omega) (by omega)
      simp only [List.mem_append, List.mem_singleton]
      push_neg
      exact ⟨ih (n / 10) hdiv, (digitChar_ne_underscore (n % 10)).symm⟩

theorem natDecimal_inj (a : Nat) : ∀ b, natDecimal a = natDecimal b → a = b := by
  induction a using Nat.strong_induction_on with
  | _ a ih =>
    intro b h
    rw [natDecimal_eq a, natDecimal_eq b] at h
    by_cases ha : a < 10 <;> by_cases hb : b < 10
    · rw [if_pos ha, if_pos hb] at h
      exact digitChar_inj a ha b hb (by simpa using h)
    · rw [if_pos ha, if_neg hb] at h
      have hlen := congrArg List.length h
      simp only [List.length_singleton, List.length_append] at hlen
      exact absurd (List.length_eq_zero.mp (by omega)) (natDecimal_ne_nil (b / 10))
    · rw [if_neg ha, if_pos hb] at h
      have hlen := congrArg List.length h
      simp only [List.length_singleton, List.length_append] at hlen
      exact absurd (List.length_eq_zero.mp (by omega)) (natDecimal_ne_nil (a / 10))
    · rw [if_neg ha, if_neg hb] at h
      obtain ⟨h1, h2⟩ := List.append_inj' h (by simp)
      have hdiv : a / 10 < a := Nat.div_lt_self (by omega) (by omega)
      have hq : a / 10 = b / 10 := ih (a / 10) hdiv (b / 10) h1
      have hr : a % 10 = b % 10 :=
        digitChar_inj (a % 10) (Nat.mod_lt _ (by omega)) (b % 10) (Nat.mod_lt _ (by omega))
          (by simpa using h2)
      omega

theorem underscore_split : ∀ (xs : List Char), '_' ∉ xs → ∀ (ys : List Char), '_' ∉ ys →
    ∀ (as bs : List Char), xs ++ '_' :: as = ys ++ '_' :: bs → xs = ys ∧ as = bs := by
  intro xs
  induction xs with
  | nil =>
    intro _ ys hys as bs h
    cases ys with
    | nil => simpa using h
    | cons y ys' =>
      simp at h
      exact absurd (h.1 ▸ List.mem_cons_self y ys') (h.1 ▸ hys)
  | cons x xs' ih =>
    intro hxs ys hys as bs h
    cases ys with
    | nil =>
      simp at h
      exact absurd (h.1 ▸ List.mem_cons_self x xs') (h.1 ▸ hxs)
    | cons y ys' =>
      simp at h
      obtain ⟨hxy, hrest⟩ := h
      have hxs' : '_' ∉ xs' := fun hm => hxs (List.mem_cons_of_mem x hm)
      have hys' : '_' ∉ ys' := fun hm => hys (List.mem_cons_of_mem y hm)
      obtain ⟨h1, h2⟩ := ih hxs' ys' hys' as bs hrest
      exact ⟨by rw [hxy, h1], h2⟩

/-- The characters of a generated key are the slug, an underscore separator,
and the decimal timestamp. -/
theorem generateKey_data (title : String) (nowMs : Nat) :
    (generateKey title nowMs).data = slugChars false title.data ++ '_' :: natDecimal nowMs := by
  simp [generateKey]

/-- C9, counterexample: two `addArea`/`addProject` calls with the identical
title `"My List"` issued in the same process tick (`Date.now()` value
1700000000000 for both) generate the very same key — id generation does
collide within one millisecond. -/
theorem c9_generate_key_counterexample :
    generateKey "My List" 1700000000000 = "my_list_1700000000000" ∧
    generateKey "My List" 1700000000000 = generateKey "My List" 1700000000000 := by
  refine ⟨by decide, rfl⟩

/-- C9, amended: generated keys are distinct whenever the `Date.now()`
timestamps differ (for any pair of titles); the uniqueness guarantee does not
extend to identical titles within the same process tick. -/
theorem c9_generate_key_amended (title1 title2 : String) (t1 t2 : Nat) (hne : t1 ≠ t2) :
    generateKey title1 t1 ≠ generateKey title2 t2 := by
  intro h
  apply hne
  have hdata := congrArg String.data h
  rw [generateKey_data, generateKey_data] at hdata
  have hrev := congrArg List.reverse hdata
  simp only [List.reverse_append, List.reverse_cons, List.append_assoc,
    List.singleton_append] at hrev
  have hno1 : '_' ∉ (natDecimal t1).reverse := by
    rw [List.mem_reverse]
    exact natDecimal_no_underscore t1
  have hno2 : '_' ∉ (natDecimal t2).reverse := by
    rw [List.mem_reverse]
    exact natDecimal_no_underscore t2
  obtain ⟨hdec, -⟩ :=
    underscore_split (natDecimal t1).reverse hno1 (natDecimal t2).reverse hno2
      (slugChars false title1.data).reverse (slugChars false title2.data).reverse hrev
  exact natDecimal_inj t1 t2 (List.reverse_injective hdec)

/-- Concrete instantiation of the amended C9 statement: the same title at two
different milliseconds yields two different keys. -/
theorem c9_generate_key_amended_witness :
    generateKey "Work" 1700000000000 ≠ generateKey "Work" 1700000000001 :=
  c9_generate_key_amended "Work" "Work" 1700000000000 1700000000001 (by decide)


/-! ### C3 and C5: reorder lemmas -/

theorem setOrder_map_id (now : String) (id : String) (idx : Nat) :
    ∀ tasks : List TaskData, (setOrder now id idx tasks).map (·.id) = tasks.map (·.id) := by
  intro tasks
  induction tasks with
  | nil => rfl
  | cons t ts ih =>
    by_cases h : t.id == id
    · simp [setOrder, h]
    · simp [setOrder, h, ih]

theorem setOrder_find_self (now : String) (id : String) (idx : Nat) :
    ∀ tasks : List TaskData, id ∈ tasks.map (·.id) →
      ∃ t, (setOrder now id idx tasks).find? (fun u => u.id == id) = some t ∧
        t.order = some (idx : Int) ∧ t.updatedAt = now ∧ t.id = id := by
  intro tasks
  induction tasks with
  | nil => simp
  | cons t ts ih =>
    intro hmem
    by_cases h : t.id = id
    · refine ⟨{ t with order := some (idx : Int), updatedAt := now }, ?_, rfl, rfl, h⟩
      simp [setOrder, h, List.find?_cons]
    · have hb : (t.id == id) = false := by simp [h]
      have hmem' : id ∈ ts.map (·.id) := by
        rcases List.mem_map.mp hmem with ⟨u, hu, hid⟩
        rcases List.mem_cons.mp hu with heq | hu
        · exact absurd (heq ▸ hid) h
        · exact List.mem_map.mpr ⟨u, hu, hid⟩
      obtain ⟨w, hw, hw2, hw3, hw4⟩ := ih hmem'
      refine ⟨w, ?_, hw2, hw3, hw4⟩
      simp [setOrder, hb, List.find?_cons, hw]

theorem setOrder_find_other (now : String) (id b : String) (idx : Nat) (hne : b ≠ id) :
    ∀ tasks : List TaskData,
      (setOrder now id idx tasks).find? (fun u => u.id == b) =
        tasks.find? (fun u => u.id == b) := by
  intro tasks
  induction tasks with
  | nil => rfl
  | cons t ts ih =>
    by_cases h : t.id == id
    · have ht : t.id = id := by simpa using h
      have hb : (t.id == b) = false := by
        rw [ht, beq_eq_false_iff_ne]
        exact fun hh => hne hh.symm
      simp [setOrder, h, List.find?_cons, hb]
    · by_cases htb : t.id == b
      · simp [setOrder, h, List.find?_cons, htb]
      · simp [setOrder, h, List.find?_cons, htb, ih]

theorem applyOrders_map_id (now : String) :
    ∀ (pairs : List (Nat × String)) (tasks : List TaskData),
      (applyOrders now tasks pairs).map (·.id) = tasks.map (·.id) := by
  intro pairs
  induction pairs with
  | nil => intro tasks; rfl
  | cons p rest ih =>
    intro tasks
    show (applyOrders now (setOrder now p.2 p.1 tasks) rest).map (·.id) = _
    rw [ih, setOrder_map_id]

theorem applyOrders_find_notmem (now : String) :
    ∀ (pairs : List (Nat × String)) (tasks : List TaskData) (a : String),
      a ∉ pairs.map (·.2) →
      (applyOrders now tasks pairs).find? (fun u => u.id == a) =
        tasks.find? (fun u => u.id == a) := by
  intro pairs
  induction pairs with
  | nil => intro tasks a _; rfl
  | cons p rest ih =>
    intro tasks a ha
    have ha1 : a ≠ p.2 := by
      intro hh
      exact ha (by simp [hh])
    have ha2 : a ∉ rest.map (·.2) := by
      intro hh
      exact ha (by simp [hh])
    show (applyOrders now (setOrder now p.2 p.1 tasks) rest).find? (fun u => u.id == a) = _
    rw [ih _ _ ha2, setOrder_find_other now p.2 a p.1 ha1]

theorem applyOrders_find (now : String) :
    ∀ (pairs : List (Nat × String)) (tasks : List TaskData),
      (pairs.map (·.2)).Nodup →
      (∀ q ∈ pairs, q.2 ∈ tasks.map (·.id)) →
      ∀ p ∈ pairs, ∃ t,
        (applyOrders now tasks pairs).find? (fun u => u.id == p.2) = some t ∧
          t.order = some (p.1 : Int) ∧ t.updatedAt = now ∧ t.id = p.2 := by
  intro pairs
  induction pairs with
  | nil => simp
  | cons q rest ih =>
    intro tasks hnodup hmem p hp
    have hq2 : q.2 ∉ rest.map (·.2) := by
      have := hnodup
      simp only [List.map_cons, List.nodup_cons] at this
      exact this.1
    have hrestnodup : (rest.map (·.2)).Nodup := by
      have := hnodup
      simp only [List.map_cons, List.nodup_cons] at this
      exact this.2
    rcases List.mem_cons.mp hp with heq | hp
    · -- p = q
      subst heq
      rw [show applyOrders now tasks (p :: rest) =
            applyOrders now (setOrder now p.2 p.1 tasks) rest from rfl]
      rw [applyOrders_find_notmem now rest _ p.2 hq2]
      exact setOrder_find_self now p.2 p.1 tasks (hmem p (List.mem_cons_self p rest))
    · -- p ∈ rest
      rw [show applyOrders now tasks (q :: rest) =
            applyOrders now (setOrder now q.2 q.1 tasks) rest from rfl]
      refine ih (setOrder now q.2 q.1 tasks) hrestnodup ?_ p hp
      intro r hr
      rw [setOrder_map_id]
      exact hmem r (List.mem_cons_of_mem q hr)

theorem enumFrom_map_snd {α : Type} : ∀ (l : List α) (k : Nat),
    (List.enumFrom k l).map (·.2) = l := by
  intro l
  induction l with
  | nil => intro k; rfl
  | cons a l ih => intro k; simp [List.enumFrom, ih]

theorem any_id_mem (tasks : List TaskData) (a : String) :
    tasks.any (fun t => t.id == a) = true ↔ a ∈ tasks.map (·.id) := by
  simp [List.any_eq_true, List.mem_map, beq_iff_eq]

theorem reorderTasksRun_ok (now : String) (tasks : List TaskData) (taskIds : List String)
    (st : List TaskData) (h : reorderTasksRun now tasks taskIds = (.ok (), st)) :
    taskIds.Nodup ∧ (∀ id ∈ taskIds, id ∈ tasks.map (·.id)) ∧
      st = applyOrders now tasks taskIds.enum := by
  unfold reorderTasksRun at h
  split at h
  · simp at h
  · rename_i hnodup
    rw [not_not] at hnodup
    split at h
    · simp at h
    · rename_i hnone
      have h2 : applyOrders now tasks taskIds.enum = st := congrArg Prod.snd h
      refine ⟨hnodup, ?_, h2.symm⟩
      intro id hid
      have hneg := List.find?_eq_none.mp hnone id hid
      have hany : tasks.any (fun t => t.id == id) = true := by
        cases hcase : tasks.any (fun t => t.id == id)
        · exact absurd (by simp [hcase]) hneg
        · rfl
      exact (any_id_mem tasks id).mp hany

/-- C3: `reorderTasks` fails with the Validation condition on duplicate ids,
fails with the Not-Found condition naming some listed id absent from the store
(checked after the duplicate validation), leaves the store untouched on every
failure, and on success gives every listed task (looked up by id) the
sort-order equal to its array position, stamping its `updatedAt`. -/
theorem c3_reorder_tasks (now : String) (tasks : List TaskData) (taskIds : List String) :
    (¬ taskIds.Nodup → reorderTasksRun now tasks taskIds = (.error .duplicateIds, tasks)) ∧
    (taskIds.Nodup → (∃ id ∈ taskIds, id ∉ tasks.map (·.id)) →
      ∃ badId ∈ taskIds, badId ∉ tasks.map (·.id) ∧
        reorderTasksRun now tasks taskIds = (.error (.taskIdNotFound badId), tasks)) ∧
    (∀ e st, reorderTasksRun now tasks taskIds = (.error e, st) → st = tasks) ∧
    (∀ st, reorderTasksRun now tasks taskIds = (.ok (), st) →
      ∀ p ∈ taskIds.enum, ∃ t, st.find? (fun u => u.id == p.2) = some t ∧
        t.order = some (p.1 : Int) ∧ t.updatedAt = now) := by
  refine ⟨?_, ?_, ?_, ?_⟩
  · intro hdup
    unfold reorderTasksRun
    rw [if_pos hdup]
  · intro hnodup hmissing
    unfold reorderTasksRun
    rw [if_neg (not_not_intro hnodup)]
    rcases hfind : taskIds.find? (fun id => !(tasks.any (fun t => t.id == id))) with _ | badId
    · exfalso
      obtain ⟨id, hid, hnm⟩ := hmissing
      have := List.find?_eq_none.mp hfind id hid
      apply this
      have hany : tasks.any (fun t => t.id == id) = false := by
        cases hcase : tasks.any (fun t => t.id == id)
        · rfl
        · exact absurd ((any_id_mem tasks id).mp hcase) hnm
      simp [hany]
    · have hmem := List.mem_of_find?_eq_some hfind
      have hpred := List.find?_some hfind
      have hnm : badId ∉ tasks.map (·.id) := by
        intro hin
        have := (any_id_mem tasks badId).mpr hin
        simp [this] at hpred
      exact ⟨badId, hmem, hnm, rfl⟩
  · intro e st h
    unfold reorderTasksRun at h
    split at h
    · exact (congrArg Prod.snd h).symm
    · split at h
      · exact (congrArg Prod.snd h).symm
      · exact absurd (congrArg Prod.fst h) (by simp)
  · intro st h p hp
    obtain ⟨hnodup, hall, hst⟩ := reorderTasksRun_ok now tasks taskIds st h
    have hsnd : (taskIds.enum.map (·.2)) = taskIds := enumFrom_map_snd taskIds 0
    have henodup : (taskIds.enum.map (·.2)).Nodup := by rw [hsnd]; exact hnodup
    have hallenum : ∀ q ∈ taskIds.enum, q.2 ∈ tasks.map (·.id) := by
      intro q hq
      apply hall
      rw [← hsnd]
      exact List.mem_map.mpr ⟨q, hq, rfl⟩
    obtain ⟨t, ht1, ht2, ht3, _⟩ := applyOrders_find now taskIds.enum tasks henodup hallenum p hp
    exact ⟨t, hst ▸ ht1, ht2, ht3⟩

theorem setOrder_nodup_eq_map (now id : String) (idx : Nat) :
    ∀ tasks : List TaskData, (tasks.map (·.id)).Nodup →
      setOrder now id idx tasks = tasks.map (fun t =>
        if t.id == id then { t with order := some (idx : Int), updatedAt := now } else t) := by
  intro tasks
  induction tasks with
  | nil => intro _; rfl
  | cons t ts ih =>
    intro hnodup
    simp only [List.map_cons, List.nodup_cons] at hnodup
    by_cases h : t.id == id
    · have ht : t.id = id := by simpa using h
      have htail : ts.map (fun u =>
          if u.id == id then { u with order := some (idx : Int), updatedAt := now } else u) =
          ts := by
        have : ∀ u ∈ ts, (if u.id == id
            then { u with order := some (idx : Int), updatedAt := now } else u) = u := by
          intro u hu
          have hune : ¬ (u.id == id) = true := by
            simp only [beq_iff_eq]
            intro hh
            exact hnodup.1 (ht ▸ hh ▸ List.mem_map.mpr ⟨u, hu, rfl⟩)
          simp [hune]
        rw [List.map_congr_left this]
        exact List.map_id' ts
      simp only [setOrder, h, if_true, List.map_cons]
      rw [htail]
    · simp only [setOrder, h, if_false, List.map_cons, Bool.false_eq_true]
      rw [ih hnodup.2]

theorem applyOrders_eq_map (now : String) :
    ∀ (pairs : List (Nat × String)) (tasks : List TaskData),
      (tasks.map (·.id)).Nodup → (pairs.map (·.2)).Nodup →
      applyOrders now tasks pairs = tasks.map (fun t =>
        match pairs.find? (fun p => p.2 == t.id) with
        | some p => { t with order := some (p.1 : Int), updatedAt := now }
        | none => t) := by
  intro pairs
  induction pairs with
  | nil =>
    intro tasks _ _
    simp [applyOrders]
  | cons q rest ih =>
    intro tasks htasks hpairs
    simp only [List.map_cons, List.nodup_cons] at hpairs
    show applyOrders now (setOrder now q.2 q.1 tasks) rest = _
    rw [setOrder_nodup_eq_map now q.2 q.1 tasks htasks]
    have hids : ((tasks.map (fun t =>
        if t.id == q.2 then { t with order := some (q.1 : Int), updatedAt := now } else t)).map
          (·.id)) = tasks.map (·.id) := by
      rw [List.map_map]
      apply List.map_congr_left
      intro t _
      by_cases h : t.id = q.2 <;> simp [h]
    rw [ih _ (hids ▸ htasks) hpairs.2, List.map_map]
    apply List.map_congr_left
    intro t _
    by_cases h : t.id = q.2
    · have hb : (t.id == q.2) = true := by simpa using h
      have hb2 : (q.2 == t.id) = true := by simp [h]
      have hrest : rest.find? (fun p => p.2 == t.id) = none := by
        apply List.find?_eq_none.mpr
        intro p hp
        simp only [beq_iff_eq]
        intro hh
        exact hpairs.1 (h ▸ hh ▸ List.mem_map.mpr ⟨p, hp, rfl⟩)
      simp [Function.comp, hb, hb2, List.find?_cons, hrest]
    · have hb : (t.id == q.2) = false := by simpa using h
      have hb2 : (q.2 == t.id) = false := by
        simp only [beq_eq_false_iff_ne]
        exact fun hh => h hh.symm
      simp [Function.comp, hb, hb2, List.find?_cons]

/-- Position of the first occurrence of a string in a list (length if absent). -/
def idxOfStr (a : String) : List String → Nat
  | [] => 0
  | b :: l => if b == a then 0 else idxOfStr a l + 1

theorem find?_enumFrom_eq (a : String) :
    ∀ (l : List String) (k : Nat), a ∈ l →
      (List.enumFrom k l).find? (fun p => p.2 == a) = some (k + idxOfStr a l, a) := by
  intro l
  induction l with
  | nil => simp
  | cons b l ih =>
    intro k hmem
    by_cases h : b == a
    · have hb : b = a := by simpa using h
      subst hb
      simp [List.enumFrom, List.find?_cons, idxOfStr]
    · have hmem' : a ∈ l := by
        rcases List.mem_cons.mp hmem with he | hm
        · exact absurd (by simp [he]) h
        · exact hm
      simp only [List.enumFrom, List.find?_cons, h, idxOfStr]
      rw [if_neg (by simp [h])]
      rw [ih (k + 1) hmem']
      congr 1
      rw [Prod.mk.injEq]
      exact ⟨by omega, rfl⟩

theorem idxOf_map_range : ∀ l : List String, l.Nodup →
    l.map (fun a => idxOfStr a l) = List.range l.length := by
  intro l
  induction l with
  | nil => intro _; rfl
  | cons b l ih =>
    intro hnodup
    simp only [List.nodup_cons] at hnodup
    have hhead : idxOfStr b (b :: l) = 0 := by simp [idxOfStr]
    have htail : l.map (fun a => idxOfStr a (b :: l)) =
        (l.map (fun a => idxOfStr a l)).map Nat.succ := by
      rw [List.map_map]
      apply List.map_congr_left
      intro a ha
      have hne : (b == a) = false := by
        simp only [beq_eq_false_iff_ne]
        intro hh
        exact hnodup.1 (hh ▸ ha)
      simp [idxOfStr, hne, Function.comp, Nat.succ_eq_add_one]
    simp only [List.map_cons, List.length_cons, hhead, htail, ih hnodup.2]
    rw [List.range_succ_eq_map]

/-- C5, amended: after a successful `reorderTasks` whose id array has no
duplicates and enumerates exactly the ids of the tasks in the store, the
stored sort-order values are a contiguous 0..n−1 permutation matching array
position, and no two tasks share an order value.  (This is the state after
the last such call of any sequence.) -/
theorem c5_order_invariant (now : String) (tasks : List TaskData) (taskIds : List String)
    (hnd : taskIds.Nodup) (hperm : (tasks.map (·.id)).Perm taskIds) :
    ∃ st, reorderTasksRun now tasks taskIds = (.ok (), st) ∧
      (st.map (·.order)).Perm ((List.range tasks.length).map (fun (i : Nat) => some (i : Int))) ∧
      (st.map (·.order)).Nodup ∧
      (∀ p ∈ taskIds.enum, ∃ t, st.find? (fun u => u.id == p.2) = some t ∧
        t.order = some (p.1 : Int)) := by
  have htasksnodup : (tasks.map (·.id)).Nodup := hperm.symm.nodup hnd
  have hall : ∀ id ∈ taskIds, id ∈ tasks.map (·.id) := fun id h => hperm.symm.subset h
  have hsnd : (taskIds.enum.map (·.2)) = taskIds := enumFrom_map_snd taskIds 0
  have henodup : (taskIds.enum.map (·.2)).Nodup := by rw [hsnd]; exact hnd
  have hrun : reorderTasksRun now tasks taskIds =
      (.ok (), applyOrders now tasks taskIds.enum) := by
    unfold reorderTasksRun
    rw [if_neg (not_not_intro hnd)]
    have hnone : taskIds.find? (fun id => !(tasks.any (fun t => t.id == id))) = none := by
      apply List.find?_eq_none.mpr
      intro id hid
      have hany : tasks.any (fun t => t.id == id) = true := (any_id_mem tasks id).mpr (hall id hid)
      simp [hany]
    rw [hnone]
  set st := applyOrders now tasks taskIds.enum with hstdef
  have hmap : st = tasks.map (fun t =>
      match taskIds.enum.find? (fun p => p.2 == t.id) with
      | some p => { t with order := some (p.1 : Int), updatedAt := now }
      | none => t) :=
    applyOrders_eq_map now taskIds.enum tasks htasksnodup henodup
  have horders : st.map (·.order) =
      tasks.map (fun t => some ((idxOfStr t.id taskIds : Nat) : Int)) := by
    rw [hmap, List.map_map]
    apply List.map_congr_left
    intro t ht
    have htid : t.id ∈ taskIds := hperm.subset (List.mem_map.mpr ⟨t, ht, rfl⟩)
    have hfind := find?_enumFrom_eq t.id taskIds 0 htid
    simp only [Function.comp_apply]
    rw [show taskIds.enum = List.enumFrom 0 taskIds from rfl, hfind]
    simp
  have hlen : tasks.length = taskIds.length := by
    simpa using hperm.length_eq
  have hperm2 : (st.map (·.order)).Perm
      ((List.range tasks.length).map (fun (i : Nat) => some (i : Int))) := by
    rw [horders]
    have h1 : tasks.map (fun t => some ((idxOfStr t.id taskIds : Nat) : Int)) =
        (tasks.map (·.id)).map (fun a => some ((idxOfStr a taskIds : Nat) : Int)) := by
      rw [List.map_map]
      rfl
    rw [h1]
    have h2 := hperm.map (fun a => some ((idxOfStr a taskIds : Nat) : Int))
    have h3 : taskIds.map (fun a => some ((idxOfStr a taskIds : Nat) : Int)) =
        (taskIds.map (fun a => idxOfStr a taskIds)).map (fun (k : Nat) => some (k : Int)) := by
      rw [List.map_map]
      rfl
    rw [h3, idxOf_map_range taskIds hnd, ← hlen] at h2
    exact h2
  refine ⟨st, hrun, hperm2, ?_, ?_⟩
  · apply hperm2.symm.nodup
    apply List.Nodup.map
    · intro i j hij
      simpa using hij
    · exact List.nodup_range _
  · intro p hp
    have hallenum : ∀ q ∈ taskIds.enum, q.2 ∈ tasks.map (·.id) := by
      intro q hq
      apply hall
      rw [← hsnd]
      exact List.mem_map.mpr ⟨q, hq, rfl⟩
    obtain ⟨t, ht1, ht2, _, _⟩ := applyOrders_find now taskIds.enum tasks henodup hallenum p hp
    exact ⟨t, ht1, ht2⟩

/-- Concrete instantiation of C3's duplicate-validation branch. -/
theorem c3_reorder_tasks_witness :
    reorderTasksRun "2025-01-01T00:00:00Z" [] ["a", "a"] = (.error .duplicateIds, []) :=
  (c3_reorder_tasks "2025-01-01T00:00:00Z" [] ["a", "a"]).1 (by decide)

/-- A store task with a stale high order value. -/
def partialTaskA : TaskData := { id := "a", title := "A", order := some 5 }

/-- A store task already holding order 0. -/
def partialTaskB : TaskData := { id := "b", title := "B", order := some 0 }

/-- C5, counterexample: a successful `reorderTasks` call whose array lists only
one of the two stored tasks leaves the store with two tasks both at order 0 —
the resulting sort-order values are neither a contiguous 0..n−1 permutation
nor pairwise distinct.  The claimed invariant fails for sequences of
successful calls that do not cover the whole store. -/
theorem c5_order_invariant_counterexample :
    reorderTasksRun "2025-01-01T00:00:00Z" [partialTaskA, partialTaskB] ["a"] =
      (.ok (), [{ partialTaskA with order := some 0, updatedAt := "2025-01-01T00:00:00Z" },
        partialTaskB]) ∧
    ([{ partialTaskA with order := some 0, updatedAt := "2025-01-01T00:00:00Z" },
        partialTaskB].map (·.order)) = [some 0, some 0] := by
  refine ⟨rfl, rfl⟩

/-- Concrete instantiation of the amended C5 statement: reordering both stored
tasks to `["b", "a"]` yields orders forming the permutation {0, 1}. -/
theorem c5_order_invariant_witness :
    ∃ st, reorderTasksRun "2025-01-01T00:00:00Z" [partialTaskA, partialTaskB] ["b", "a"] =
        (.ok (), st) ∧
      (st.map (·.order)).Perm
        ((List.range ([partialTaskA, partialTaskB] : List TaskData).length).map
          (fun (i : Nat) => some (i : Int))) ∧
      (st.map (·.order)).Nodup ∧
      (∀ p ∈ (["b", "a"] : List String).enum, ∃ t,
        st.find? (fun u => u.id == p.2) = some t ∧ t.order = some (p.1 : Int)) :=
  c5_order_invariant "2025-01-01T00:00:00Z" [partialTaskA, partialTaskB] ["b", "a"]
    (by decide) (by decide)
